import Mathlib

/-!
# Verification of the nappo multi-repository package search core

A shallow embedding of `nappo.py`: the version resolver, service-index
resolution, per-repository search (`package_search`), aggregation
(`search_command` / `download_command`) and download-URL construction,
together with theorems checking the specification's claims.

Python strings are sequences of characters, so the Python string
operations used by the source (`==`, `startswith`, `endswith`, `s[:-1]`,
`lower`, ordering) are embedded as functions on `String.data`.
Fallible Python code (exceptions) is embedded with `Except PyExn`.
-/

deriving instance DecidableEq for Except

namespace Nappo

/-- The Python exceptions that the embedded code can raise. -/
inductive PyExn where
  /-- a failed `assert` statement -/
  | assertionError
  /-- reading a local variable that was never assigned -/
  | unboundLocalError
  /-- `json.load` failed on a malformed document (not caught by `get_json`) -/
  | jsonDecodeError
  /-- subscripting an empty list, as in `packages[0]` -/
  | indexError
  /-- subscripting `None`, as in `j['resources']` when `j` is `None` -/
  | typeError
  /-- `packaging.version.parse` rejected the version string -/
  | invalidVersion (s : String)
deriving DecidableEq, Repr

/-! ## Python string primitives (on `String.data`) -/

/-- Python `s.startswith(p)`: `p` is a literal character-prefix of `s`. -/
def pyStartsWith (s p : String) : Bool :=
  p.data.isPrefixOf s.data

/-- Python `s.endswith(p)`: `p` is a literal character-suffix of `s`. -/
def pyEndsWith (s p : String) : Bool :=
  p.data.isSuffixOf s.data

/-- Python `s[:-1]`: the string without its last character. -/
def pyDropLast (s : String) : String :=
  ⟨s.data.dropLast⟩

/-- Python `s.lower()` (ASCII letters, as used by the source's inputs). -/
def pyLower (s : String) : String :=
  ⟨s.data.map Char.toLower⟩

/-! ## Data model

The JSON documents the source consumes, in the schema it assumes:
a service index `{"resources": [{"@id": ..., "@type": ...}, ...]}` and a
search result `{"data": [{"id": ..., "versions": [{"@id": ..., "version":
...}, ...]}, ...]}`. -/

/-- One entry of a service index document's `resources` list. -/
structure Resource where
  /-- the `"@type"` field -/
  type : String
  /-- the `"@id"` field (the endpoint URL) -/
  id : String
deriving DecidableEq, Repr

/-- A parsed service index document. -/
structure IndexDoc where
  resources : List Resource
deriving DecidableEq, Repr

/-- One entry of a package's `versions` list in a search result. -/
structure VersionEntry where
  /-- the `"@id"` field (the version's self link) -/
  id : String
  /-- the `"version"` field -/
  version : String
deriving DecidableEq, Repr

/-- One entry of a search result's `data` list. -/
structure PackageEntry where
  id : String
  versions : List VersionEntry
deriving DecidableEq, Repr

/-- A parsed search result document. -/
structure SearchDoc where
  data : List PackageEntry
deriving DecidableEq, Repr

/-- The `Package = namedtuple('Package', ...)` result record. -/
structure Package where
  name : String
  version : String
  repository : String
deriving DecidableEq, Repr

/-! ## The fetch boundary -/

/-- What fetching one URL can yield, as observed by `get_json`:
`urllib.request.urlopen` raises `HTTPError` on a non-2xx status and
`URLError` on a transport failure; otherwise `json.load` either parses a
document or raises `JSONDecodeError`. -/
inductive FetchOutcome (α : Type) where
  /-- non-2xx HTTP status (`urllib.error.HTTPError`) -/
  | httpError
  /-- network/transport failure (`urllib.error.URLError`) -/
  | urlError
  /-- the response body is not valid JSON (`json.JSONDecodeError`) -/
  | badJson
  /-- a well-formed document was fetched and parsed -/
  | ok (doc : α)
deriving DecidableEq, Repr

/-- The fetch wrapper `get_json`: catches `HTTPError` and `URLError`,
returning `None`;
a `JSONDecodeError` from `json.load` is not caught and propagates. -/
def get_json {α : Type} : FetchOutcome α → Except PyExn (Option α)
  | .httpError => .ok none
  | .urlError => .ok none
  | .badJson => .error .jsonDecodeError
  | .ok d => .ok (some d)

/-- The network, as the embedded program observes it: the outcome of
fetching each repository index URL and each search query URL. -/
structure World where
  index : String → FetchOutcome IndexDoc
  search : String → FetchOutcome SearchDoc

/-! ## The version resolver

`version_sort_key` delegates to `packaging.version.parse`, an external
library; its behaviour is modelled from the spec (§4.1), as is the
ordering on the resulting keys. -/

/-- One identifier of a pre-release suffix: numeric or alphabetic. -/
inductive PreId where
  | num (n : Nat)
  | alpha (s : String)
deriving DecidableEq, Repr

/-- A comparable version key: numeric release segments (normalised, so
that missing trailing segments count as zero) and an optional
pre-release suffix. Build metadata is already discarded by parsing. -/
structure VersionKey where
  release : List Nat
  pre : Option (List PreId)
deriving DecidableEq, Repr

/-- Split a character list on a separator character. -/
def splitOnChar (sep : Char) : List Char → List (List Char)
  | [] => [[]]
  | c :: cs =>
    if c = sep then [] :: splitOnChar sep cs
    else
      match splitOnChar sep cs with
      | [] => [[c]]
      | x :: xs => (c :: x) :: xs

/-- Read a nonempty all-digit character list as a decimal number. -/
def decDigits? (l : List Char) : Option Nat :=
  if !l.isEmpty && l.all (·.isDigit) then
    some (l.foldl (fun n c => n * 10 + (c.toNat - 48)) 0)
  else none

/-- Normalise a release segment list by removing trailing zeros, so that
comparing keys element-wise treats missing trailing segments as zero. -/
def stripTrailingZeros (l : List Nat) : List Nat :=
  (l.reverse.dropWhile (· == 0)).reverse

/-- Modelled from the spec: `packaging.version.parse`, the external
version parser the source uses via `version_sort_key`. Following §4.1:
discard a build-metadata suffix (from the first `+`), split an optional
pre-release suffix at the first `-`, read the release part as
dot-separated numeric segments, and read the pre-release suffix as
dot-separated identifiers, numeric or alphabetic. Fails (with
`VersionParseError`, embedded as `PyExn.invalidVersion`) when the string
is empty or a release segment is not numeric. -/
def parseVersion (s : String) : Except PyExn VersionKey :=
  let noBuild := s.data.takeWhile (· ≠ '+')
  let relChars := noBuild.takeWhile (· ≠ '-')
  match (splitOnChar '.' relChars).mapM decDigits? with
  | none => .error (.invalidVersion s)
  | some rel =>
    if relChars.length = noBuild.length then
      .ok ⟨stripTrailingZeros rel, none⟩
    else
      let preChars := noBuild.drop (relChars.length + 1)
      let preIds := (splitOnChar '.' preChars).map fun seg =>
        match decDigits? seg with
        | some n => PreId.num n
        | none => PreId.alpha ⟨seg⟩
      .ok ⟨stripTrailingZeros rel, some preIds⟩

/-- The sort key `version_sort_key`: `packaging.version.parse(version)`. -/
def version_sort_key (version : String) : Except PyExn VersionKey :=
  parseVersion version

/-! ### The order on version keys -/

/-- Three-way comparison of naturals. -/
def cmpNat (a b : Nat) : Ordering :=
  if a < b then .lt else if b < a then .gt else .eq

/-- Lexicographic comparison of lists (a strict prefix is smaller). -/
def cmpLex {α : Type} (c : α → α → Ordering) : List α → List α → Ordering
  | [], [] => .eq
  | [], _ :: _ => .lt
  | _ :: _, [] => .gt
  | a :: as, b :: bs =>
    match c a b with
    | .eq => cmpLex c as bs
    | o => o

/-- Compare characters by code point, as Python does. -/
def cmpChar (a b : Char) : Ordering :=
  cmpNat a.toNat b.toNat

/-- Modelled from the spec: pre-release identifiers compare with numeric
identifiers before alphabetic ones, numerically respectively
lexicographically within each kind (§4.1). -/
def cmpPreId : PreId → PreId → Ordering
  | .num a, .num b => cmpNat a b
  | .num _, .alpha _ => .lt
  | .alpha _, .num _ => .gt
  | .alpha a, .alpha b => cmpLex cmpChar a.data b.data

/-- Modelled from the spec: a release (no pre-release suffix) orders
strictly above any pre-release of the same release segments (§4.1). -/
def cmpPre : Option (List PreId) → Option (List PreId) → Ordering
  | none, none => .eq
  | some _, none => .lt
  | none, some _ => .gt
  | some a, some b => cmpLex cmpPreId a b

/-- Modelled from the spec: compare version keys by release segments
first, then by pre-release suffix (§4.1). -/
def cmpVersion (a b : VersionKey) : Ordering :=
  match cmpLex cmpNat a.release b.release with
  | .eq => cmpPre a.pre b.pre
  | o => o

/-- The non-strict key order used when sorting by `version_sort_key`. -/
def versionLe (a b : VersionKey) : Bool :=
  cmpVersion a b != .gt

/-- The strict key order. -/
def versionLt (a b : VersionKey) : Bool :=
  cmpVersion a b == .lt

/-- Python string ordering (by code point, lexicographic), used to sort
the search result's package entries by their `id`. -/
def pyStrLe (a b : String) : Bool :=
  cmpLex cmpChar a.data b.data != .gt

/-! ## Python's `sorted`

`sorted(xs, key=f)` computes `f` on every element (left to right) and
stable-sorts ascending by the resulting keys. A stable ascending sort is
unique, so it is embedded as an insertion sort that keeps an element
after earlier equal-key elements. -/

/-- Insert `a` into `l`, before the first element `b` with `le a b`. -/
def pyInsert {α : Type} (le : α → α → Bool) (a : α) : List α → List α
  | [] => [a]
  | b :: l => if le a b then a :: b :: l else b :: pyInsert le a l

/-- Python's `sorted`: stable ascending by the total preorder `le`. -/
def pySorted {α : Type} (le : α → α → Bool) : List α → List α
  | [] => []
  | a :: l => pyInsert le a (pySorted le l)

/-- Compute the sort key of every element, left to right, stopping at
the first raised exception — as `sorted(xs, key=f)` does. -/
def decorate {α κ : Type} (key : α → Except PyExn κ) : List α → Except PyExn (List (α × κ))
  | [] => .ok []
  | a :: l => do
    let k ← key a
    let rest ← decorate key l
    pure ((a, k) :: rest)

/-- Python `sorted(xs, key=f)` with a fallible key function. -/
def pySortedByKey {α κ : Type} (key : α → Except PyExn κ) (le : κ → κ → Bool)
    (l : List α) : Except PyExn (List α) := do
  let pairs ← decorate key l
  pure ((pySorted (fun p q => le p.2 q.2) pairs).map Prod.fst)

/-- The accumulation loop `for x in l: acc.extend(g(x))`, used both for
the entries of one result document and for the per-repository loops of
`search_command` and `download_command`. -/
def extendLoop {α β : Type} (g : α → Except PyExn (List β)) :
    List β → List α → Except PyExn (List β)
  | acc, [] => .ok acc
  | acc, x :: l => do
    let ps ← g x
    extendLoop g (acc ++ ps) l

/-- Run a fallible function over a list, left to right, collecting the
results and stopping at the first raised exception. -/
def mapExcept {α β : Type} (g : α → Except PyExn β) : List α → Except PyExn (List β)
  | [] => .ok []
  | a :: l => do
    let b ← g a
    let rest ← mapExcept g l
    pure (b :: rest)

/-! ## Version matching and service resolution -/

/-- The matcher `version_matches`: exact string equality, or a
trailing-`*` pattern
whose part before the `*` is a literal character prefix of `version`. -/
def version_matches (version : String) (exact_or_pattern : String) : Bool :=
  version == exact_or_pattern
    || (pyEndsWith exact_or_pattern "*"
          && pyStartsWith version (pyDropLast exact_or_pattern))

/-- The resource-scanning loop shared by `package_search` and
`download_command`: iterate over `resources`, assigning the service URL
on every entry whose `@type` starts with `svcType`; `none` means the
variable was never assigned. -/
def findServiceUrl (resources : List Resource) (svcType : String) : Option String :=
  resources.foldl
    (fun acc r => if pyStartsWith r.type svcType then some r.id else acc)
    none

/-! ## The per-repository search (`package_search`) -/

/-- The emitted hit:
`Package(f'{version["@id"]}', f'{version["version"]}', repository_url)`. -/
def mkPackage (repository_url : String) (v : VersionEntry) : Package :=
  ⟨v.id, v.version, repository_url⟩

/-- The inner loop of `package_search` over one entry's (sorted) version
list: when `package_version` is truthy (not `None`, not the empty
string), keep a version only if `version_matches` accepts it; otherwise
emit every version. -/
def emitVersions (repository_url : String) (package_version : Option String)
    (versions : List VersionEntry) : List Package :=
  match package_version with
  | some pv =>
    if pv = "" then versions.map (mkPackage repository_url)
    else
      (versions.filter fun v => version_matches v.version pv).map
        (mkPackage repository_url)
  | none => versions.map (mkPackage repository_url)

/-- Process one package entry: sort its versions ascending by
`version_sort_key`, then filter/emit them. -/
def searchEntry (repository_url : String) (package_version : Option String)
    (e : PackageEntry) : Except PyExn (List Package) := do
  let sortedVs ← pySortedByKey (fun v => version_sort_key v.version) versionLe
    e.versions
  pure (emitVersions repository_url package_version sortedVs)

/-- Process the result document's `data` list: sort the entries by `id`
and concatenate each entry's emitted packages. -/
def searchData (repository_url : String) (package_version : Option String)
    (data : List PackageEntry) : Except PyExn (List Package) :=
  extendLoop (searchEntry repository_url package_version) []
    (pySorted (fun a b => pyStrLe a.id b.id) data)

/-- The query string built against the search endpoint. -/
def searchString (search_service_url package_name : String) : String :=
  search_service_url ++ "?q=" ++ package_name ++ "&prerelease=true&semVerLevel=2.0.0"

/-- The per-repository search
`package_search(repository_url, package_name, package_version)`:
assert the preconditions, fetch the repository's service index, locate
the search service with the resource-scanning loop (an index without a
matching resource leaves `search_service_url` unassigned, so reading it
raises `UnboundLocalError`), fetch the search results, and filter/sort
them. `package_name` is `Option String` so that passing Python's `None`
is representable. -/
def package_search (w : World) (repository_url : String)
    (package_name : Option String) (package_version : Option String) :
    Except PyExn (List Package) :=
  match package_name with
  | none => .error .assertionError
  | some name =>
    if name = "" then .error .assertionError
    else if package_version = some "" then .error .assertionError
    else do
      match ← get_json (w.index repository_url) with
      | none => pure []
      | some j =>
        match findServiceUrl j.resources "SearchQueryService/3.0" with
        | none => .error .unboundLocalError
        | some search_service_url =>
          if search_service_url = "" then pure []
          else
            match ← get_json (w.search (searchString search_service_url name)) with
            | none => pure []
            | some j2 => searchData repository_url package_version j2.data

/-! ## Aggregation and selection -/

/-- The aggregation loop shared by `search_command` and
`download_command`: run `package_search` over every repository in order,
extending one result list, then sort it ascending by
`version_sort_key` of each package's version. (`download_command` skips
the sort when the list has at most one element, which sorts to itself,
so the two commands aggregate identically.) -/
def aggregate (w : World) (repository_urls : List String)
    (package_name : Option String) (package_version : Option String) :
    Except PyExn (List Package) := do
  let results ← extendLoop
    (fun repo => package_search w repo package_name package_version) []
    repository_urls
  pySortedByKey (fun p => version_sort_key p.version) versionLe results

/-- The selection step of `download_command`: sort the aggregate when it
has more than one element, then take `packages[0]` — which raises
`IndexError` on an empty list. -/
def select_for_download (packages : List Package) : Except PyExn Package := do
  let packages ←
    if packages.length > 1 then
      pySortedByKey (fun p => version_sort_key p.version) versionLe packages
    else pure packages
  match packages with
  | [] => .error .indexError
  | p :: _ => pure p

/-! ## Download URL construction -/

/-- The f-string of `download_command`:
`f'{content_service_url}/{package.name}/{package.version}/{package.name.lower()}.{package.version.lower()}.nupkg'`. -/
def download_url (content_service_url : String) (package : Package) : String :=
  content_service_url ++ "/" ++ package.name ++ "/" ++ package.version ++ "/"
    ++ pyLower package.name ++ "." ++ pyLower package.version ++ ".nupkg"

/-- The content-service resolution and URL construction of
`download_command`: fetch the selected package's origin repository index
(`get_json`'s `None` is subscripted unchecked, raising `TypeError`),
scan for a `PackageBaseAddress/3.0` resource with the same
last-match-wins loop, and build the download URL. `none` models the
`return []` taken when the resolved URL is the empty string. -/
def resolve_download_url (w : World) (package : Package) :
    Except PyExn (Option String) := do
  match ← get_json (w.index package.repository) with
  | none => .error .typeError
  | some j =>
    match findServiceUrl j.resources "PackageBaseAddress/3.0" with
    | none => .error .unboundLocalError
    | some content_service_url =>
      if content_service_url = "" then pure none
      else pure (some (download_url content_service_url package))


/-! ## Concrete worlds and documents used by the claim theorems -/

/-- The two-resource index document used to refute C3. -/
def c3Doc : List Resource :=
  [⟨"SearchQueryService/3.0", "https://first.example/query"⟩,
   ⟨"SearchQueryService/3.0/4.0.0", "https://second.example/query"⟩]

/-- The index document used to witness the amended C9. -/
def c9Doc : IndexDoc :=
  ⟨[⟨"PackageBaseAddress/3.0", "https://base"⟩]⟩

/-- The world used to witness the amended C9. -/
def c9World : World :=
  ⟨fun _ => .ok c9Doc, fun _ => .httpError⟩

/-- A world in which every fetch fails with a non-2xx HTTP status. -/
def emptyWorld : World :=
  ⟨fun _ => .httpError, fun _ => .httpError⟩

/-- A world whose repository index lacks a `SearchQueryService/3.0`
resource. -/
def noSvcWorld : World :=
  ⟨fun _ => .ok ⟨[⟨"PackageBaseAddress/3.0", "https://content"⟩]⟩,
    fun _ => .httpError⟩

/-- A world whose search endpoint responds with malformed JSON. -/
def badSearchJsonWorld : World :=
  ⟨fun _ => .ok ⟨[⟨"SearchQueryService/3.0", "https://s"⟩]⟩,
    fun _ => .badJson⟩

/-- A world whose repository index responds with malformed JSON. -/
def badIndexJsonWorld : World :=
  ⟨fun _ => .badJson, fun _ => .httpError⟩

/-- A world in which every fetch fails with a transport error. -/
def urlErrWorld : World :=
  ⟨fun _ => .urlError, fun _ => .urlError⟩

/-- The service index used to witness C7. -/
def c7Doc : IndexDoc := ⟨[⟨"SearchQueryService/3.0", "https://s"⟩]⟩

/-- The search result used to witness C7. -/
def c7SDoc : SearchDoc := ⟨[⟨"Foo", [⟨"v1", "1.0.0"⟩, ⟨"v2", "2.0.0"⟩]⟩]⟩

/-- The world used to witness C7. -/
def c7World : World :=
  ⟨fun _ => .ok c7Doc, fun _ => .ok c7SDoc⟩

/-- The service index used to witness C8. -/
def c8Doc : IndexDoc := ⟨[⟨"SearchQueryService/3.0", "https://s"⟩]⟩

/-- The search result with an unparseable version used to witness C8. -/
def c8SDoc : SearchDoc := ⟨[⟨"Foo", [⟨"vid", "garbage"⟩]⟩]⟩

/-- The world used to witness C8. -/
def c8World : World :=
  ⟨fun _ => .ok c8Doc, fun _ => .ok c8SDoc⟩

/-- Search result of repository "A" in the C5 witness world. -/
def c5DocA : SearchDoc := ⟨[⟨"Foo", [⟨"a1", "1.0.0"⟩]⟩]⟩

/-- Search result of repository "B" in the C5 witness world. -/
def c5DocB : SearchDoc := ⟨[⟨"Foo", [⟨"b1", "0.9.0"⟩, ⟨"b2", "1.0.0"⟩]⟩]⟩

/-- A two-repository world: "A" yields 1.0.0, "B" yields 0.9.0 and a tie
on 1.0.0. -/
def c5World : World :=
  ⟨fun r => .ok ⟨[⟨"SearchQueryService/3.0", r ++ "/q"⟩]⟩,
    fun q =>
      if q = searchString "A/q" "Foo" then .ok c5DocA else .ok c5DocB⟩

/-- The per-repository contributions in the C5 witness world. -/
def c5Contribs : List (List Package) :=
  [[⟨"a1", "1.0.0", "A"⟩], [⟨"b1", "0.9.0", "B"⟩, ⟨"b2", "1.0.0", "B"⟩]]

/-- The key-decorated concatenation in the C5 witness world. -/
def c5Pairs : List (Package × VersionKey) :=
  [(⟨"a1", "1.0.0", "A"⟩, ⟨[1], none⟩),
   (⟨"b1", "0.9.0", "B"⟩, ⟨[0, 9], none⟩),
   (⟨"b2", "1.0.0", "B"⟩, ⟨[1], none⟩)]

end Nappo

namespace Nappo

variable {A B K : Type}

@[simp] theorem exceptBind_ok (a : A) (f : A -> Except PyExn B) :
    (Except.ok a >>= f : Except PyExn B) = f a := rfl

@[simp] theorem exceptBind_error (e : PyExn) (f : A -> Except PyExn B) :
    (Except.error e >>= f : Except PyExn B) = .error e := rfl

@[simp] theorem exceptPure (a : A) : (pure a : Except PyExn A) = .ok a := rfl

theorem cmpNat_lt_iff {a b : Nat} : cmpNat a b = .lt <-> a < b := by
  unfold cmpNat
  split
  · simp; omega
  · split <;> simp <;> omega

theorem cmpNat_eq_iff {a b : Nat} : cmpNat a b = .eq <-> a = b := by
  unfold cmpNat
  split
  · simp; omega
  · split <;> simp <;> omega

theorem cmpNat_swap (a b : Nat) : (cmpNat a b).swap = cmpNat b a := by
  unfold cmpNat
  split <;> split <;> first | rfl | omega

theorem cmpNat_lt_trans {a b c : Nat} (h1 : cmpNat a b = .lt)
    (h2 : cmpNat b c = .lt) : cmpNat a c = .lt := by
  rw [cmpNat_lt_iff] at *
  omega

section CmpLex

variable {c : A -> A -> Ordering}

theorem cmpLex_eq_iff (hc : forall a b : A, c a b = .eq <-> a = b) :
    forall l1 l2 : List A, cmpLex c l1 l2 = .eq <-> l1 = l2
  | [], [] => by simp [cmpLex]
  | [], _ :: _ => by simp [cmpLex]
  | _ :: _, [] => by simp [cmpLex]
  | a :: as, b :: bs => by
    simp only [cmpLex]
    cases h : c a b with
    | lt =>
      simp only [List.cons.injEq]
      constructor
      · intro habs; cases habs
      · rintro ⟨rfl, _⟩
        rw [(hc a a).mpr rfl] at h
        cases h
    | gt =>
      simp only [List.cons.injEq]
      constructor
      · intro habs; cases habs
      · rintro ⟨rfl, _⟩
        rw [(hc a a).mpr rfl] at h
        cases h
    | eq =>
      have hab := (hc a b).mp h
      subst hab
      rw [cmpLex_eq_iff hc as bs]
      simp

theorem cmpLex_swap (hc : forall a b : A, (c a b).swap = c b a) :
    forall l1 l2 : List A, (cmpLex c l1 l2).swap = cmpLex c l2 l1
  | [], [] => rfl
  | [], _ :: _ => rfl
  | _ :: _, [] => rfl
  | a :: as, b :: bs => by
    simp only [cmpLex]
    cases h : c a b with
    | lt =>
      have : c b a = .gt := by rw [← hc a b, h]; rfl
      rw [this]; rfl
    | gt =>
      have : c b a = .lt := by rw [← hc a b, h]; rfl
      rw [this]; rfl
    | eq =>
      have : c b a = .eq := by rw [← hc a b, h]; rfl
      rw [this]
      exact cmpLex_swap hc as bs

theorem cmpLex_lt_trans (hceq : forall a b : A, c a b = .eq <-> a = b)
    (hctr : forall a b d : A, c a b = .lt -> c b d = .lt -> c a d = .lt) :
    forall l1 l2 l3 : List A, cmpLex c l1 l2 = .lt -> cmpLex c l2 l3 = .lt ->
      cmpLex c l1 l3 = .lt
  | [], [], _, h1, _ => by cases h1
  | [], _ :: _, [], _, h2 => by cases h2
  | [], _ :: _, _ :: _, _, _ => rfl
  | _ :: _, [], _, h1, _ => by cases h1
  | _ :: _, _ :: _, [], _, h2 => by cases h2
  | a :: as, b :: bs, d :: ds, h1, h2 => by
    cases hab : c a b with
    | gt => simp [cmpLex, hab] at h1
    | lt =>
      cases hbd : c b d with
      | gt => simp [cmpLex, hbd] at h2
      | lt => simp [cmpLex, hctr a b d hab hbd]
      | eq =>
        have := (hceq b d).mp hbd
        subst this
        simp [cmpLex, hab]
    | eq =>
      have := (hceq a b).mp hab
      subst this
      simp only [cmpLex, hab] at h1
      cases hbd : c a d with
      | gt => simp [cmpLex, hbd] at h2
      | lt => simp [cmpLex, hbd]
      | eq =>
        simp only [cmpLex, hbd] at h2 ⊢
        exact cmpLex_lt_trans hceq hctr as bs ds h1 h2

end CmpLex

theorem charToNat_inj {a b : Char} (h : a.toNat = b.toNat) : a = b := by
  have := congrArg Char.ofNat h
  simpa using this

theorem cmpChar_eq_iff {a b : Char} : cmpChar a b = .eq <-> a = b := by
  unfold cmpChar
  rw [cmpNat_eq_iff]
  exact ⟨charToNat_inj, fun h => by rw [h]⟩

theorem cmpChar_swap (a b : Char) : (cmpChar a b).swap = cmpChar b a :=
  cmpNat_swap a.toNat b.toNat

theorem cmpChar_lt_trans {a b c : Char} (h1 : cmpChar a b = .lt)
    (h2 : cmpChar b c = .lt) : cmpChar a c = .lt :=
  cmpNat_lt_trans h1 h2

theorem cmpPreId_eq_iff {a b : PreId} : cmpPreId a b = .eq <-> a = b := by
  cases a <;> cases b <;> simp only [cmpPreId]
  · rw [cmpNat_eq_iff]; simp
  · simp
  · simp
  · rw [cmpLex_eq_iff (fun _ _ => cmpChar_eq_iff)]
    constructor
    · intro h
      congr 1
      exact congrArg String.mk h
    · intro h
      cases h
      rfl

theorem cmpPreId_swap (a b : PreId) : (cmpPreId a b).swap = cmpPreId b a := by
  cases a <;> cases b <;> simp only [cmpPreId] <;> first
    | rfl
    | exact cmpNat_swap ..
    | exact cmpLex_swap cmpChar_swap ..

theorem cmpPreId_lt_trans {a b c : PreId} (h1 : cmpPreId a b = .lt)
    (h2 : cmpPreId b c = .lt) : cmpPreId a c = .lt := by
  cases a <;> cases b <;> cases c <;>
    simp only [cmpPreId, reduceCtorEq] at h1 h2 ⊢ <;>
    first
      | trivial
      | exact cmpNat_lt_trans h1 h2
      | exact cmpLex_lt_trans (fun _ _ => cmpChar_eq_iff)
          (fun _ _ _ => cmpChar_lt_trans) _ _ _ h1 h2

theorem cmpPre_eq_iff {a b : Option (List PreId)} : cmpPre a b = .eq <-> a = b := by
  cases a with
  | none =>
    cases b with
    | none => simp [cmpPre]
    | some m => simp [cmpPre]
  | some l =>
    cases b with
    | none => simp [cmpPre]
    | some m =>
      simp only [cmpPre, Option.some.injEq]
      exact cmpLex_eq_iff (fun _ _ => cmpPreId_eq_iff) l m

theorem cmpPre_swap (a b : Option (List PreId)) : (cmpPre a b).swap = cmpPre b a := by
  cases a <;> cases b <;> simp only [cmpPre] <;> first
    | rfl
    | exact cmpLex_swap cmpPreId_swap ..

theorem cmpPre_lt_trans {a b c : Option (List PreId)} (h1 : cmpPre a b = .lt)
    (h2 : cmpPre b c = .lt) : cmpPre a c = .lt := by
  cases a <;> cases b <;> cases c <;>
    simp only [cmpPre, reduceCtorEq] at h1 h2 ⊢ <;>
    first
      | trivial
      | exact cmpLex_lt_trans (fun _ _ => cmpPreId_eq_iff)
          (fun _ _ _ => cmpPreId_lt_trans) _ _ _ h1 h2

theorem cmpVersion_eq_iff {a b : VersionKey} : cmpVersion a b = .eq <-> a = b := by
  obtain ⟨r1, p1⟩ := a
  obtain ⟨r2, p2⟩ := b
  simp only [cmpVersion]
  cases hr : cmpLex cmpNat r1 r2 with
  | lt =>
    simp only [VersionKey.mk.injEq]
    constructor
    · intro h; cases h
    · rintro ⟨rfl, _⟩
      rw [(cmpLex_eq_iff (fun _ _ => cmpNat_eq_iff) r1 r1).mpr rfl] at hr
      cases hr
  | gt =>
    simp only [VersionKey.mk.injEq]
    constructor
    · intro h; cases h
    · rintro ⟨rfl, _⟩
      rw [(cmpLex_eq_iff (fun _ _ => cmpNat_eq_iff) r1 r1).mpr rfl] at hr
      cases hr
  | eq =>
    have := (cmpLex_eq_iff (fun _ _ => cmpNat_eq_iff) r1 r2).mp hr
    subst this
    rw [cmpPre_eq_iff]
    simp

theorem cmpVersion_swap (a b : VersionKey) : (cmpVersion a b).swap = cmpVersion b a := by
  obtain ⟨r1, p1⟩ := a
  obtain ⟨r2, p2⟩ := b
  simp only [cmpVersion]
  cases hr : cmpLex cmpNat r1 r2 with
  | lt =>
    have : cmpLex cmpNat r2 r1 = .gt := by
      rw [← cmpLex_swap cmpNat_swap r1 r2, hr]; rfl
    rw [this]; rfl
  | gt =>
    have : cmpLex cmpNat r2 r1 = .lt := by
      rw [← cmpLex_swap cmpNat_swap r1 r2, hr]; rfl
    rw [this]; rfl
  | eq =>
    have : cmpLex cmpNat r2 r1 = .eq := by
      rw [← cmpLex_swap cmpNat_swap r1 r2, hr]; rfl
    rw [this]
    exact cmpPre_swap p1 p2

theorem cmpVersion_lt_trans {a b c : VersionKey} (h1 : cmpVersion a b = .lt)
    (h2 : cmpVersion b c = .lt) : cmpVersion a c = .lt := by
  obtain ⟨r1, p1⟩ := a
  obtain ⟨r2, p2⟩ := b
  obtain ⟨r3, p3⟩ := c
  simp only [cmpVersion] at *
  cases hr12 : cmpLex cmpNat r1 r2 with
  | gt => rw [hr12] at h1; cases h1
  | lt =>
    cases hr23 : cmpLex cmpNat r2 r3 with
    | gt => rw [hr23] at h2; cases h2
    | lt =>
      rw [cmpLex_lt_trans (fun _ _ => cmpNat_eq_iff) (fun _ _ _ => cmpNat_lt_trans) _ _ _ hr12 hr23]
    | eq =>
      have := (cmpLex_eq_iff (fun _ _ => cmpNat_eq_iff) r2 r3).mp hr23
      subst this
      rw [hr12]
  | eq =>
    have := (cmpLex_eq_iff (fun _ _ => cmpNat_eq_iff) r1 r2).mp hr12
    subst this
    rw [hr12] at h1
    cases hr13 : cmpLex cmpNat r1 r3 with
    | gt => rw [hr13] at h2; cases h2
    | lt => rfl
    | eq =>
      rw [hr13] at h2
      exact cmpPre_lt_trans h1 h2

theorem versionLe_refl (a : VersionKey) : versionLe a a = true := by
  unfold versionLe
  rw [cmpVersion_eq_iff.mpr rfl]
  rfl

theorem versionLe_total (a b : VersionKey) : versionLe a b || versionLe b a := by
  unfold versionLe
  cases h : cmpVersion a b with
  | lt => rfl
  | eq => rfl
  | gt =>
    have : cmpVersion b a = .lt := by rw [← cmpVersion_swap a b, h]; rfl
    rw [this]
    rfl

theorem versionLe_trans {a b c : VersionKey} (h1 : versionLe a b = true)
    (h2 : versionLe b c = true) : versionLe a c = true := by
  unfold versionLe at *
  cases hab : cmpVersion a b with
  | gt => rw [hab] at h1; cases h1
  | eq =>
    have := cmpVersion_eq_iff.mp hab
    subst this
    exact h2
  | lt =>
    cases hbc : cmpVersion b c with
    | gt => rw [hbc] at h2; cases h2
    | eq =>
      have := cmpVersion_eq_iff.mp hbc
      subst this
      rw [hab]
      rfl
    | lt =>
      rw [cmpVersion_lt_trans hab hbc]
      rfl

section PySorted

variable {le : A -> A -> Bool}

theorem pyInsert_perm (le : A -> A -> Bool) (a : A) :
    forall l : List A, (pyInsert le a l).Perm (a :: l)
  | [] => List.Perm.refl _
  | b :: l => by
    simp only [pyInsert]
    split
    · exact List.Perm.refl _
    · exact ((pyInsert_perm le a l).cons b).trans (List.Perm.swap a b l)

theorem pySorted_perm (le : A -> A -> Bool) :
    forall l : List A, (pySorted le l).Perm l
  | [] => List.Perm.refl _
  | a :: l =>
    (pyInsert_perm le a (pySorted le l)).trans ((pySorted_perm le l).cons a)

theorem pyInsert_pairwise {le : A -> A -> Bool}
    (htot : forall a b : A, le a b || le b a)
    (htr : forall a b c : A, le a b = true -> le b c = true -> le a c = true)
    (a : A) : forall l : List A, l.Pairwise (le · · = true) ->
      (pyInsert le a l).Pairwise (le · · = true)
  | [], _ => List.pairwise_singleton ..
  | b :: l, hl => by
    rw [List.pairwise_cons] at hl
    obtain ⟨hb, hl'⟩ := hl
    simp only [pyInsert]
    split
    · rename_i hab
      refine List.Pairwise.cons ?_ (List.Pairwise.cons hb hl')
      intro x hx
      rw [List.mem_cons] at hx
      rcases hx with rfl | hx
      · exact hab
      · exact htr a b x hab (hb x hx)
    · rename_i hab
      have hba : le b a = true := by
        have h := htot a b
        rw [Bool.or_eq_true] at h
        rcases h with h | h
        · exact absurd h hab
        · exact h
      refine List.Pairwise.cons ?_ (pyInsert_pairwise htot htr a l hl')
      intro x hx
      have hx' := (pyInsert_perm le a l).mem_iff.mp hx
      rw [List.mem_cons] at hx'
      rcases hx' with rfl | hx'
      · exact hba
      · exact hb x hx'

theorem pySorted_pairwise (le : A -> A -> Bool)
    (htot : forall a b : A, le a b || le b a)
    (htr : forall a b c : A, le a b = true -> le b c = true -> le a c = true) :
    forall l : List A, (pySorted le l).Pairwise (le · · = true)
  | [] => List.Pairwise.nil
  | a :: l => pyInsert_pairwise htot htr a _ (pySorted_pairwise le htot htr l)

theorem pyInsert_filter_pos (p : A -> Bool) (a : A) (hpa : p a = true)
    (hskip : forall b, p b = true -> le a b = true) :
    forall l : List A, (pyInsert le a l).filter p = a :: l.filter p
  | [] => by simp [pyInsert, List.filter, hpa]
  | b :: l => by
    simp only [pyInsert]
    split
    · simp [List.filter_cons, hpa]
    · rename_i hab
      have hpb : p b = false := by
        cases h : p b
        · rfl
        · exact absurd (hskip b h) hab
      simp [List.filter_cons, hpb, pyInsert_filter_pos p a hpa hskip l]

theorem pyInsert_filter_neg (p : A -> Bool) (a : A) (hpa : p a = false) :
    forall l : List A, (pyInsert le a l).filter p = l.filter p
  | [] => by simp [pyInsert, List.filter, hpa]
  | b :: l => by
    simp only [pyInsert]
    split
    · simp [List.filter_cons, hpa]
    · simp [List.filter_cons, pyInsert_filter_neg p a hpa l]

theorem pySorted_filter (le : A -> A -> Bool) (p : A -> Bool)
    (hp : forall a b : A, p a = true -> p b = true -> le a b = true) :
    forall l : List A, (pySorted le l).filter p = l.filter p
  | [] => rfl
  | a :: l => by
    simp only [pySorted]
    cases hpa : p a
    · rw [pyInsert_filter_neg p a hpa, pySorted_filter le p hp l]
      simp [List.filter_cons, hpa]
    · rw [pyInsert_filter_pos p a hpa (fun b hb => hp a b hpa hb),
        pySorted_filter le p hp l]
      simp [List.filter_cons, hpa]

end PySorted

section Decorate

variable {key : A -> Except PyExn K}

theorem decorate_ok_mem {l : List A} {pairs : List (A × K)}
    (h : decorate key l = .ok pairs) :
    forall a, a ∈ l -> exists k, key a = .ok k := by
  induction l generalizing pairs with
  | nil => intro a ha; cases ha
  | cons b l ih =>
    intro a ha
    simp only [decorate] at h
    cases hk : key b with
    | error e => rw [hk] at h; cases h
    | ok k =>
      rw [hk] at h
      cases hrest : decorate key l with
      | error e => rw [hrest] at h; cases h
      | ok rest =>
        rw [List.mem_cons] at ha
        rcases ha with rfl | ha
        · exact ⟨k, hk⟩
        · exact ih hrest a ha

theorem decorate_map_fst {l : List A} {pairs : List (A × K)}
    (h : decorate key l = .ok pairs) : pairs.map Prod.fst = l := by
  induction l generalizing pairs with
  | nil => cases h; rfl
  | cons b l ih =>
    simp only [decorate] at h
    cases hk : key b with
    | error e => rw [hk] at h; cases h
    | ok k =>
      rw [hk] at h
      cases hrest : decorate key l with
      | error e => rw [hrest] at h; cases h
      | ok rest =>
        rw [hrest] at h
        cases h
        simp [ih hrest]

theorem decorate_error_mem {l : List A} {e : PyExn}
    (h : decorate key l = .error e) :
    exists a, a ∈ l ∧ key a = .error e := by
  induction l with
  | nil => cases h
  | cons b l ih =>
    simp only [decorate] at h
    cases hk : key b with
    | error e' =>
      rw [hk] at h
      cases h
      exact ⟨b, List.mem_cons_self .., hk⟩
    | ok k =>
      rw [hk] at h
      cases hrest : decorate key l with
      | error e' =>
        rw [hrest] at h
        cases h
        obtain ⟨a, ha, hka⟩ := ih hrest
        exact ⟨a, List.mem_cons_of_mem _ ha, hka⟩
      | ok rest => rw [hrest] at h; cases h

theorem decorate_not_ok {l : List A} {a : A} (ha : a ∈ l)
    (hbad : forall k, key a ≠ .ok k) :
    exists e, decorate key l = .error e ∧ exists b, b ∈ l ∧ key b = .error e := by
  cases hd : decorate key l with
  | ok pairs =>
    obtain ⟨k, hk⟩ := decorate_ok_mem hd a ha
    exact absurd hk (hbad k)
  | error e => exact ⟨e, rfl, decorate_error_mem hd⟩

end Decorate

section ExceptLemmas

variable {B : Type} {g : A -> Except PyExn B}

theorem mapExcept_error_mem {l : List A} {e : PyExn}
    (h : mapExcept g l = .error e) : exists a, a ∈ l ∧ g a = .error e := by
  induction l with
  | nil => cases h
  | cons b l ih =>
    simp only [mapExcept] at h
    cases hg : g b with
    | error e' =>
      rw [hg] at h
      cases h
      exact ⟨b, List.mem_cons_self .., hg⟩
    | ok x =>
      rw [hg] at h
      cases hm : mapExcept g l with
      | error e' =>
        rw [hm] at h
        cases h
        obtain ⟨a, ha, hga⟩ := ih hm
        exact ⟨a, List.mem_cons_of_mem _ ha, hga⟩
      | ok out => rw [hm] at h; cases h

theorem mapExcept_ok_forall2 :
    forall {l : List A} {out : List B}, mapExcept g l = .ok out ->
      List.Forall₂ (fun a b => g a = .ok b) l out := by
  intro l
  induction l with
  | nil => intro out h; cases h; exact List.Forall₂.nil
  | cons b l ih =>
    intro out h
    simp only [mapExcept] at h
    cases hg : g b with
    | error e => rw [hg] at h; cases h
    | ok x =>
      rw [hg] at h
      cases hm : mapExcept g l with
      | error e => rw [hm] at h; cases h
      | ok rest =>
        rw [hm] at h
        cases h
        exact List.Forall₂.cons hg (ih hm)

theorem mapExcept_ok_mem : forall {l : List A} {out : List B},
    mapExcept g l = .ok out -> forall a, a ∈ l -> exists b, g a = .ok b := by
  intro l
  induction l with
  | nil => intro out _ a ha; cases ha
  | cons b l ih =>
    intro out h a ha
    simp only [mapExcept] at h
    cases hg : g b with
    | error e => rw [hg] at h; cases h
    | ok x =>
      rw [hg] at h
      cases hm : mapExcept g l with
      | error e => rw [hm] at h; cases h
      | ok rest =>
        rw [List.mem_cons] at ha
        rcases ha with rfl | ha
        · exact ⟨x, hg⟩
        · exact ih hm a ha

theorem flatten_perm_of_forall2 {l1 l2 : List (List B)}
    (h : List.Forall₂ List.Perm l1 l2) : l1.flatten.Perm l2.flatten := by
  induction h with
  | nil => exact List.Perm.refl _
  | cons hp _ ih =>
    rw [List.flatten_cons, List.flatten_cons]
    exact hp.append ih

theorem extendLoop_eq (g : A -> Except PyExn (List B)) :
    forall (l : List A) (init : List B),
      extendLoop g init l
        = (do let cs ← mapExcept g l; pure (init ++ cs.flatten))
  | [], init => by simp [extendLoop, mapExcept]
  | a :: l, init => by
    simp only [extendLoop, mapExcept]
    cases hg : g a with
    | error e => simp
    | ok c =>
      simp only [exceptBind_ok]
      rw [extendLoop_eq g l (init ++ c)]
      cases hm : mapExcept g l with
      | error e => simp
      | ok cs => simp [List.append_assoc]

end ExceptLemmas


/-! Error-shape lemmas: the only exception the version-key machinery can
raise is `invalidVersion`. -/

theorem parseVersion_error_shape {s : String} {e : PyExn}
    (h : parseVersion s = .error e) : e = .invalidVersion s := by
  simp only [parseVersion] at h
  split at h
  · injection h with h2
    exact h2.symm
  · split at h
    · cases h
    · cases h

theorem version_sort_key_error_shape {s : String} {e : PyExn}
    (h : version_sort_key s = .error e) : e = .invalidVersion s :=
  parseVersion_error_shape h

section SortedByKey

variable {key : A -> Except PyExn K} {le : K -> K -> Bool}

theorem pySortedByKey_ok (le : K -> K -> Bool) {l : List A}
    {pairs : List (A × K)} (h : decorate key l = .ok pairs) :
    pySortedByKey key le l
      = .ok ((pySorted (fun p q => le p.2 q.2) pairs).map Prod.fst) := by
  simp [pySortedByKey, h]

theorem pySortedByKey_error_mem {l : List A} {e : PyExn}
    (h : pySortedByKey key le l = .error e) :
    exists a, a ∈ l ∧ key a = .error e := by
  simp only [pySortedByKey] at h
  cases hd : decorate key l with
  | ok pairs => rw [hd] at h; simp at h
  | error e' =>
    rw [hd] at h
    simp at h
    cases h
    exact decorate_error_mem hd

/-- A sort by key succeeds exactly on the decorated list, and its result
is the stable sort of the decorated pairs projected back. -/
theorem pySortedByKey_perm (key : A -> Except PyExn K) (le : K -> K -> Bool)
    {l : List A} {out : List A}
    (h : pySortedByKey key le l = .ok out) : out.Perm l := by
  simp only [pySortedByKey] at h
  cases hd : decorate key l with
  | error e' => rw [hd] at h; simp at h
  | ok pairs =>
    rw [hd] at h
    simp at h
    cases h
    have h1 : ((pySorted (fun p q => le p.2 q.2) pairs).map Prod.fst).Perm
        (pairs.map Prod.fst) :=
      (pySorted_perm _ pairs).map Prod.fst
    rw [decorate_map_fst hd] at h1
    exact h1

end SortedByKey

section SearchLemmas

theorem searchEntry_error_shape {repo : String} {pv : Option String}
    {e : PackageEntry} {err : PyExn}
    (h : searchEntry repo pv e = .error err) :
    exists s, err = .invalidVersion s := by
  simp only [searchEntry] at h
  cases hs : pySortedByKey (fun v => version_sort_key v.version) versionLe
      e.versions with
  | ok l => rw [hs] at h; simp at h
  | error e' =>
    rw [hs] at h
    simp only [exceptBind_error, Except.error.injEq] at h
    subst h
    obtain ⟨v, _, hkv⟩ := pySortedByKey_error_mem hs
    exact ⟨v.version, version_sort_key_error_shape hkv⟩

theorem searchEntry_ok_of_decorate {repo : String} {pv : Option String}
    {e : PackageEntry} {pairs : List (VersionEntry × VersionKey)}
    (h : decorate (fun v => version_sort_key v.version) e.versions = .ok pairs) :
    searchEntry repo pv e
      = .ok (emitVersions repo pv
          ((pySorted (fun p q => versionLe p.2 q.2) pairs).map Prod.fst)) := by
  rw [searchEntry, pySortedByKey_ok versionLe h]
  rfl

theorem searchEntry_ok_versions {repo : String} {pv : Option String}
    {e : PackageEntry} {out : List Package}
    (h : searchEntry repo pv e = .ok out) :
    forall v, v ∈ e.versions -> exists k, version_sort_key v.version = .ok k := by
  simp only [searchEntry] at h
  cases hs : pySortedByKey (fun v => version_sort_key v.version) versionLe
      e.versions with
  | error e' => rw [hs] at h; simp at h
  | ok l =>
    intro v hv
    simp only [pySortedByKey] at hs
    cases hd : decorate (fun v => version_sort_key v.version) e.versions with
    | error e' => rw [hd] at hs; simp at hs
    | ok pairs => exact decorate_ok_mem hd v hv

theorem searchData_eq (repo : String) (pv : Option String)
    (data : List PackageEntry) :
    searchData repo pv data
      = (do
          let cs ← mapExcept (searchEntry repo pv)
            (pySorted (fun a b => pyStrLe a.id b.id) data)
          pure cs.flatten) := by
  rw [searchData, extendLoop_eq]
  cases hm : mapExcept (searchEntry repo pv)
      (pySorted (fun a b => pyStrLe a.id b.id) data) with
  | error e => rfl
  | ok cs => simp

theorem searchData_error_shape {repo : String} {pv : Option String}
    {data : List PackageEntry} {err : PyExn}
    (h : searchData repo pv data = .error err) :
    exists s, err = .invalidVersion s := by
  rw [searchData_eq] at h
  cases hm : mapExcept (searchEntry repo pv)
      (pySorted (fun a b => pyStrLe a.id b.id) data) with
  | ok cs => rw [hm] at h; simp at h
  | error e =>
    rw [hm] at h
    simp only [exceptBind_error, Except.error.injEq] at h
    subst h
    obtain ⟨a, _, ha⟩ := mapExcept_error_mem hm
    exact searchEntry_error_shape ha

theorem searchData_ok_mem {repo : String} {pv : Option String}
    {data : List PackageEntry} {out : List Package}
    (h : searchData repo pv data = .ok out) :
    forall e, e ∈ data -> exists l, searchEntry repo pv e = .ok l := by
  rw [searchData_eq] at h
  cases hm : mapExcept (searchEntry repo pv)
      (pySorted (fun a b => pyStrLe a.id b.id) data) with
  | error e' => rw [hm] at h; simp at h
  | ok cs =>
    intro e he
    have hmem : e ∈ pySorted (fun a b => pyStrLe a.id b.id) data :=
      (pySorted_perm _ data).mem_iff.mpr he
    exact mapExcept_ok_mem hm e hmem

theorem searchData_bad_version (repo : String) (pv : Option String)
    {data : List PackageEntry} {e : PackageEntry} {v : VersionEntry}
    (he : e ∈ data) (hv : v ∈ e.versions)
    (hbad : forall k, version_sort_key v.version ≠ .ok k) :
    exists s, searchData repo pv data = .error (.invalidVersion s) := by
  cases hres : searchData repo pv data with
  | ok out =>
    obtain ⟨l, hl⟩ := searchData_ok_mem hres e he
    obtain ⟨k, hk⟩ := searchEntry_ok_versions hl v hv
    exact absurd hk (hbad k)
  | error err =>
    obtain ⟨s, rfl⟩ := searchData_error_shape hres
    exact ⟨s, rfl⟩

theorem package_search_eq_searchData {w : World} {repo name : String}
    {pv : Option String} {idoc : IndexDoc} {url : String} {sdoc : SearchDoc}
    (hname : name ≠ "") (hpv : pv ≠ some "")
    (hidx : w.index repo = .ok idoc)
    (hsvc : findServiceUrl idoc.resources "SearchQueryService/3.0" = some url)
    (hurl : url ≠ "")
    (hsearch : w.search (searchString url name) = .ok sdoc) :
    package_search w repo (some name) pv = searchData repo pv sdoc.data := by
  simp [package_search, hname, hpv, hidx, hsvc, hurl, hsearch, get_json]

theorem package_search_no_assert {w : World} {repo name : String}
    {pv : Option String} (hname : name ≠ "") (hpv : pv ≠ some "") :
    package_search w repo (some name) pv ≠ .error .assertionError := by
  simp only [package_search, if_neg hname, if_neg hpv]
  cases hidx : w.index repo with
  | httpError => simp [get_json]
  | urlError => simp [get_json]
  | badJson => simp [get_json]
  | ok idoc =>
    simp only [get_json, exceptBind_ok]
    cases hsvc : findServiceUrl idoc.resources "SearchQueryService/3.0" with
    | none => simp
    | some url =>
      by_cases hurl : url = ""
      · simp [hurl]
      · simp only [if_neg hurl]
        cases hs : w.search (searchString url name) with
        | httpError => simp [get_json]
        | urlError => simp [get_json]
        | badJson => simp [get_json]
        | ok sdoc =>
          simp only [get_json, exceptBind_ok]
          intro hres
          obtain ⟨s, hs2⟩ := searchData_error_shape hres
          cases hs2

end SearchLemmas

/-! ## Claims -/

theorem pyStartsWith_iff {s p : String} :
    pyStartsWith s p = true <-> exists r : String, s = p ++ r := by
  obtain ⟨sd⟩ := s
  obtain ⟨pd⟩ := p
  simp only [pyStartsWith, List.isPrefixOf_iff_prefix]
  constructor
  · rintro ⟨t, ht⟩
    exact ⟨⟨t⟩, by rw [← ht]; rfl⟩
  · rintro ⟨⟨rd⟩, hr⟩
    injection hr with h
    exact ⟨rd, h.symm⟩

theorem pyEndsWith_star_iff {p : String} :
    pyEndsWith p "*" = true <-> exists q : String, p = q ++ "*" := by
  obtain ⟨pd⟩ := p
  simp only [pyEndsWith, List.isSuffixOf_iff_suffix]
  constructor
  · rintro ⟨t, ht⟩
    exact ⟨⟨t⟩, by rw [← ht]; rfl⟩
  · rintro ⟨⟨qd⟩, hq⟩
    injection hq with h
    exact ⟨qd, h.symm⟩

/-- Claim C1: `version_matches v p` is true iff `v` equals `p` exactly, or `p`
ends in `*` and `v` starts with the part of `p` before the `*` — a
literal textual prefix check (the matching versions are exactly the
strings of the form "prefix of p before the star, then anything");
in particular `version_matches v v` holds for every `v`,
`"1.2.3"` matches `"1.2.*"`, `"1.3.0"` does not match `"1.2.*"`, and
`"1.20.0"` matches `"1.2*"`. -/
theorem C1_version_matches_iff :
    (forall v p : String, version_matches v p = true <->
      (v = p ∨ exists q r : String, p = q ++ "*" ∧ v = q ++ r)) ∧
    (forall v : String, version_matches v v = true) ∧
    version_matches "1.2.3" "1.2.*" = true ∧
    version_matches "1.3.0" "1.2.*" = false ∧
    version_matches "1.20.0" "1.2*" = true := by
  refine ⟨?_, fun v => by simp [version_matches], by decide, by decide, by decide⟩
  intro v p
  simp only [version_matches, Bool.or_eq_true, beq_iff_eq, Bool.and_eq_true]
  constructor
  · rintro (rfl | ⟨hend, hstart⟩)
    · exact Or.inl rfl
    · obtain ⟨q, rfl⟩ := pyEndsWith_star_iff.mp hend
      obtain ⟨r, hr⟩ := pyStartsWith_iff.mp hstart
      refine Or.inr ⟨q, r, rfl, ?_⟩
      have hdrop : pyDropLast (q ++ "*") = q := by
        obtain ⟨qd⟩ := q
        simp [pyDropLast]
      rw [hdrop] at hr
      exact hr
  · rintro (rfl | ⟨q, r, rfl, rfl⟩)
    · exact Or.inl rfl
    · refine Or.inr ⟨pyEndsWith_star_iff.mpr ⟨q, rfl⟩, ?_⟩
      have hdrop : pyDropLast (q ++ "*") = q := by
        obtain ⟨qd⟩ := q
        simp [pyDropLast]
      rw [hdrop]
      exact pyStartsWith_iff.mpr ⟨r, rfl⟩

/-- Claim C2: on the aggregate [0.9.0, 1.0.0, 2.0.0] the selection step of
`download_command` returns the 0.9.0 package — the first element of the
ascending-sorted aggregate, i.e. the lowest version; but on an empty
aggregate `packages[0]` raises `IndexError` (an internal crash), not a
clean no-package-found signal. -/
theorem C2_select_for_download :
    select_for_download
        [⟨"a", "0.9.0", "r2"⟩, ⟨"b", "1.0.0", "r1"⟩, ⟨"c", "2.0.0", "r1"⟩]
      = .ok ⟨"a", "0.9.0", "r2"⟩ ∧
    select_for_download
        [⟨"c", "2.0.0", "r1"⟩, ⟨"a", "0.9.0", "r2"⟩, ⟨"b", "1.0.0", "r1"⟩]
      = .ok ⟨"a", "0.9.0", "r2"⟩ ∧
    select_for_download [] = .error .indexError := by
  refine ⟨by decide, by decide, by decide⟩

/-- Claim C3 counterexample: with two resources whose types start with the
prefix, the resource-scanning loop yields the endpoint of the LAST
matching resource in document order, not the first. -/
theorem C3_counterexample :
    findServiceUrl c3Doc "SearchQueryService/3.0"
      = some "https://second.example/query" ∧
    (c3Doc.find? (fun r => pyStartsWith r.type "SearchQueryService/3.0")).map
        Resource.id
      = some "https://first.example/query" ∧
    some "https://second.example/query" ≠ some "https://first.example/query" := by
  refine ⟨by decide, by decide, by decide⟩

theorem findServiceUrl_gen (svcType : String) :
    forall (resources : List Resource) (acc : Option String),
      List.foldl
        (fun acc r => if pyStartsWith r.type svcType then some r.id else acc)
        acc resources
      = ((resources.reverse.find? fun r => pyStartsWith r.type svcType).map
          Resource.id).or acc
  | [], acc => by simp
  | r :: rest, acc => by
    rw [List.foldl_cons, findServiceUrl_gen svcType rest]
    rw [List.reverse_cons, List.find?_append]
    cases hf : rest.reverse.find? (fun r => pyStartsWith r.type svcType) with
    | some x => simp
    | none =>
      cases hm : pyStartsWith r.type svcType <;>
        simp [List.find?, hm]

/-- Claim C3 amended: the resolution loop returns the endpoint of the last
resource in document order whose type starts with the required prefix —
for every prefix, hence both for "SearchQueryService/3.0" (search) and
"PackageBaseAddress/3.0" (download). -/
theorem C3_amended_last_match (resources : List Resource) (svcType : String) :
    findServiceUrl resources svcType
      = (resources.reverse.find? fun r => pyStartsWith r.type svcType).map
          Resource.id := by
  rw [findServiceUrl, findServiceUrl_gen]
  simp

/-- Claim C6: a pre-release key orders strictly below the release key with the
same release segments, and sorting ["2.0.0", "1.0.0", "1.5.0-beta"] by
the version key yields ["1.0.0", "1.5.0-beta", "2.0.0"]. -/
theorem C6_prerelease_below :
    (forall (r : List Nat) (pre : List PreId),
      versionLt ⟨r, some pre⟩ ⟨r, none⟩ = true) ∧
    pySortedByKey version_sort_key versionLe ["2.0.0", "1.0.0", "1.5.0-beta"]
      = .ok ["1.0.0", "1.5.0-beta", "2.0.0"] := by
  constructor
  · intro r pre
    simp only [versionLt, cmpVersion]
    rw [(cmpLex_eq_iff (fun _ _ => cmpNat_eq_iff) r r).mpr rfl]
    rfl
  · decide

/-- Claim C9 counterexample: the download URL keeps the original case of the
package name and version in the directory segments and lowercases them
only in the final filename segment. -/
theorem C9_counterexample :
    download_url "https://base" ⟨"Foo", "1.0.0-Beta", "https://repo"⟩
      = "https://base/Foo/1.0.0-Beta/foo.1.0.0-beta.nupkg" ∧
    "https://base/Foo/1.0.0-Beta/foo.1.0.0-beta.nupkg"
      ≠ "https://base/foo/1.0.0-beta/foo.1.0.0-beta.nupkg" := by
  refine ⟨by decide, by decide⟩

/-- Claim C9 amended: for the selected package the download URL is
`{base}/{name}/{version}/{name.lower()}.{version.lower()}.nupkg`, where
`base` is the endpoint resolved from the package's origin repository
index via the type prefix "PackageBaseAddress/3.0" — name and version
appear verbatim in the directory segments and lowercased only in the
filename segment. -/
theorem C9_amended_download_url (w : World) (pkg : Package) (idoc : IndexDoc)
    (base : String) (hidx : w.index pkg.repository = .ok idoc)
    (hsvc : findServiceUrl idoc.resources "PackageBaseAddress/3.0" = some base)
    (hbase : base ≠ "") :
    resolve_download_url w pkg
      = .ok (some (base ++ "/" ++ pkg.name ++ "/" ++ pkg.version ++ "/"
          ++ pyLower pkg.name ++ "." ++ pyLower pkg.version ++ ".nupkg")) := by
  simp [resolve_download_url, get_json, hidx, hsvc, hbase, download_url]

theorem C9_amended_witness :
    resolve_download_url c9World ⟨"Foo", "1.0.0-Beta", "https://repo"⟩
      = .ok (some ("https://base" ++ "/" ++ "Foo" ++ "/" ++ "1.0.0-Beta" ++ "/"
          ++ pyLower "Foo" ++ "." ++ pyLower "1.0.0-Beta" ++ ".nupkg")) :=
  C9_amended_download_url c9World ⟨"Foo", "1.0.0-Beta", "https://repo"⟩ c9Doc
    "https://base" rfl (by decide) (by decide)

section MoreSupport

variable {key : A -> Except PyExn K}

theorem decorate_ok_of_forall {l : List A}
    (h : forall a, a ∈ l -> exists k, key a = .ok k) :
    exists pairs, decorate key l = .ok pairs := by
  induction l with
  | nil => exact ⟨[], rfl⟩
  | cons b l ih =>
    obtain ⟨k, hk⟩ := h b (List.mem_cons_self ..)
    obtain ⟨rest, hrest⟩ := ih fun a ha => h a (List.mem_cons_of_mem _ ha)
    exact ⟨(b, k) :: rest, by simp [decorate, hk, hrest]⟩

theorem mapExcept_ok_of_forall {g : A -> Except PyExn B} {l : List A}
    (h : forall a, a ∈ l -> exists b, g a = .ok b) :
    exists out, mapExcept g l = .ok out := by
  induction l with
  | nil => exact ⟨[], rfl⟩
  | cons b l ih =>
    obtain ⟨x, hx⟩ := h b (List.mem_cons_self ..)
    obtain ⟨rest, hrest⟩ := ih fun a ha => h a (List.mem_cons_of_mem _ ha)
    exact ⟨x :: rest, by simp [mapExcept, hx, hrest]⟩

theorem flatten_perm_flatMap {g : A -> List B} {l : List A} {cs : List (List B)}
    (h : List.Forall₂ (fun a c => c.Perm (g a)) l cs) :
    cs.flatten.Perm (l.flatMap g) := by
  induction h with
  | nil => exact List.Perm.refl _
  | cons hp _ ih =>
    rw [List.flatten_cons, List.flatMap_cons]
    exact hp.append ih

theorem searchEntry_none_perm {repo : String} {e : PackageEntry}
    {out : List Package} (h : searchEntry repo none e = .ok out) :
    out.Perm (e.versions.map (mkPackage repo)) := by
  simp only [searchEntry] at h
  cases hs : pySortedByKey (fun v => version_sort_key v.version) versionLe
      e.versions with
  | error e' => rw [hs] at h; simp at h
  | ok sortedVs =>
    rw [hs] at h
    simp only [exceptBind_ok, exceptPure, Except.ok.injEq] at h
    subst h
    have hperm := pySortedByKey_perm _ _ hs
    simpa [emitVersions] using hperm.map (mkPackage repo)

theorem exceptIsOk_exists {x : Except PyExn B} (h : x.isOk = true) :
    exists b, x = .ok b := by
  cases x with
  | ok b => exact ⟨b, rfl⟩
  | error e => cases h

theorem aggregate_head_error {w : World} {repo : String} {n pv : Option String}
    {rest : List String} {err : PyExn}
    (h : package_search w repo n pv = .error err) :
    aggregate w (repo :: rest) n pv = .error err := by
  simp [aggregate, extendLoop, h]

end MoreSupport

/-- Claim C4: a non-2xx status or a transport failure on either fetch degrades
to an empty contribution, but the per-repository search DOES raise for
the other failure kinds the claim lists: a repository index without a
`SearchQueryService/3.0` resource raises `UnboundLocalError` (the
`search_service_url` variable is never assigned), and malformed JSON on
either fetch raises an uncaught `JSONDecodeError` — both abort the
operation instead of contributing an empty sequence. -/
theorem C4_failure_containment :
    package_search emptyWorld "r" (some "Foo") none = .ok [] ∧
    package_search urlErrWorld "r" (some "Foo") none = .ok [] ∧
    package_search noSvcWorld "r" (some "Foo") none
      = .error .unboundLocalError ∧
    package_search badSearchJsonWorld "r" (some "Foo") none
      = .error .jsonDecodeError ∧
    package_search badIndexJsonWorld "r" (some "Foo") none
      = .error .jsonDecodeError ∧
    aggregate noSvcWorld ["r"] (some "Foo") none
      = .error .unboundLocalError := by
  refine ⟨by decide, by decide, by decide, by decide, by decide, by decide⟩

/-- Claim C10: `package_search` asserts its preconditions: a `None` or empty
package name and an empty-string (rather than `None`) version spec each
fail an assertion, and when the package name is a nonempty string and
the version spec is `None` or a nonempty string, no assertion can fail. -/
theorem C10_preconditions (w : World) (repo : String) :
    (forall pv, package_search w repo none pv = .error .assertionError) ∧
    (forall pv, package_search w repo (some "") pv = .error .assertionError) ∧
    (forall name, package_search w repo name (some "") = .error .assertionError) ∧
    (forall name pv, name ≠ "" -> pv ≠ some "" ->
      package_search w repo (some name) pv ≠ .error .assertionError) := by
  refine ⟨fun pv => rfl, fun pv => by simp [package_search], fun name => ?_,
    fun name pv h1 h2 => package_search_no_assert h1 h2⟩
  cases name with
  | none => rfl
  | some n =>
    by_cases hn : n = "" <;> simp [package_search, hn]

theorem C10_preconditions_witness :
    package_search emptyWorld "r" (some "Foo") none ≠ .error .assertionError :=
  (C10_preconditions emptyWorld "r").2.2.2 "Foo" none (by decide) (by decide)

/-- Claim C7: when the caller supplies no version spec (`None`; the commands
normalise an empty string to `None` before calling), matching is
skipped: the per-repository search emits every version entry of every
package entry — its output is a permutation of all versions of all
entries, so nothing is filtered out. -/
theorem C7_no_spec_emits_all (w : World) (repo name : String) (idoc : IndexDoc)
    (url : String) (sdoc : SearchDoc)
    (hname : name ≠ "")
    (hidx : w.index repo = .ok idoc)
    (hsvc : findServiceUrl idoc.resources "SearchQueryService/3.0" = some url)
    (hurl : url ≠ "")
    (hsearch : w.search (searchString url name) = .ok sdoc)
    (hparse : forall e, e ∈ sdoc.data -> forall v, v ∈ e.versions ->
      (version_sort_key v.version).isOk = true) :
    exists out, package_search w repo (some name) none = .ok out ∧
      out.Perm (sdoc.data.flatMap fun e => e.versions.map (mkPackage repo)) := by
  rw [package_search_eq_searchData hname (by simp) hidx hsvc hurl hsearch]
  rw [searchData_eq]
  have hentries : forall e, e ∈ pySorted (fun a b => pyStrLe a.id b.id) sdoc.data ->
      exists l, searchEntry repo none e = .ok l := by
    intro e he
    have he' : e ∈ sdoc.data := (pySorted_perm _ sdoc.data).mem_iff.mp he
    obtain ⟨pairs, hpairs⟩ := decorate_ok_of_forall
      (fun v hv => exceptIsOk_exists (hparse e he' v hv))
    exact ⟨_, searchEntry_ok_of_decorate hpairs⟩
  obtain ⟨cs, hcs⟩ := mapExcept_ok_of_forall hentries
  refine ⟨cs.flatten, by rw [hcs]; rfl, ?_⟩
  have h2 := mapExcept_ok_forall2 hcs
  have h3 : List.Forall₂
      (fun e c => List.Perm c (e.versions.map (mkPackage repo)))
      (pySorted (fun a b => pyStrLe a.id b.id) sdoc.data) cs := by
    refine h2.imp ?_
    intro e c hec
    exact searchEntry_none_perm hec
  have h4 := flatten_perm_flatMap h3
  exact h4.trans (List.Perm.flatMap_right _ (pySorted_perm _ sdoc.data))

theorem C7_no_spec_witness :
    exists out, package_search c7World "repo" (some "Foo") none = .ok out ∧
      out.Perm (c7SDoc.data.flatMap fun e => e.versions.map (mkPackage "repo")) :=
  C7_no_spec_emits_all c7World "repo" "Foo" c7Doc "https://s" c7SDoc
    (by decide) rfl (by decide) (by decide) rfl (by decide)

/-- Claim C8: a version string in a fetched result set that the version parser
rejects raises the parse error and nothing handles it: `package_search`
returns it, and the per-repository loop of the commands propagates it,
aborting the whole multi-repository operation. -/
theorem C8_parse_error_propagates (w : World) (repo name : String)
    (pv : Option String) (idoc : IndexDoc) (url : String) (sdoc : SearchDoc)
    (rest : List String) (e : PackageEntry) (v : VersionEntry)
    (hname : name ≠ "") (hpv : pv ≠ some "")
    (hidx : w.index repo = .ok idoc)
    (hsvc : findServiceUrl idoc.resources "SearchQueryService/3.0" = some url)
    (hurl : url ≠ "")
    (hsearch : w.search (searchString url name) = .ok sdoc)
    (he : e ∈ sdoc.data) (hv : v ∈ e.versions)
    (hbad : (version_sort_key v.version).isOk = false) :
    exists s, package_search w repo (some name) pv = .error (.invalidVersion s)
      ∧ aggregate w (repo :: rest) (some name) pv
          = .error (.invalidVersion s) := by
  have hbad' : forall k, version_sort_key v.version ≠ .ok k := by
    intro k hk
    rw [hk] at hbad
    cases hbad
  obtain ⟨s, hs⟩ := searchData_bad_version repo pv he hv hbad'
  rw [← package_search_eq_searchData hname hpv hidx hsvc hurl hsearch] at hs
  exact ⟨s, hs, aggregate_head_error hs⟩

theorem C8_parse_error_witness :
    exists s, package_search c8World "repo" (some "Foo") none
        = .error (.invalidVersion s)
      ∧ aggregate c8World ["repo"] (some "Foo") none
          = .error (.invalidVersion s) :=
  C8_parse_error_propagates c8World "repo" "Foo" none c8Doc "https://s" c8SDoc
    [] ⟨"Foo", [⟨"vid", "garbage"⟩]⟩ ⟨"vid", "garbage"⟩
    (by decide) (by decide) rfl (by decide) (by decide) rfl
    (by decide) (by decide) (by decide)

/-- Claim C5: when every per-repository search succeeds, `aggregate` runs them
once per repository in the given order, concatenates the contributions,
and stable-sorts the concatenation ascending by each package's version
key: the output is exactly the stable sort of the key-decorated
concatenation — a permutation of it, pairwise ascending in `versionLe`,
and, for every key, the packages carrying that key appear in the same
relative order as in the concatenated input. -/
theorem C5_aggregate_stable_sort (w : World) (repos : List String)
    (name pv : Option String) (contribs : List (List Package))
    (pairs : List (Package × VersionKey))
    (hsearch : mapExcept (fun repo => package_search w repo name pv) repos
      = .ok contribs)
    (hdec : decorate (fun p => version_sort_key p.version) contribs.flatten
      = .ok pairs) :
    exists out,
      aggregate w repos name pv = .ok out ∧
      out = (pySorted (fun p q => versionLe p.2 q.2) pairs).map Prod.fst ∧
      out.Perm contribs.flatten ∧
      (pySorted (fun p q => versionLe p.2 q.2) pairs).Pairwise
        (fun p q => versionLe p.2 q.2 = true) ∧
      (forall k : VersionKey,
        (pySorted (fun p q => versionLe p.2 q.2) pairs).filter
            (fun p => p.2 == k)
          = pairs.filter fun p => p.2 == k) := by
  have hagg : aggregate w repos name pv
      = pySortedByKey (fun p => version_sort_key p.version) versionLe
          contribs.flatten := by
    simp [aggregate, extendLoop_eq, hsearch]
  have hsorted := pySortedByKey_ok versionLe hdec
  refine ⟨(pySorted (fun p q => versionLe p.2 q.2) pairs).map Prod.fst,
    by rw [hagg, hsorted], rfl, ?_, ?_, ?_⟩
  · refine pySortedByKey_perm (fun p => version_sort_key p.version)
      versionLe ?_
    rw [hsorted]
  · exact pySorted_pairwise (fun p q => versionLe p.2 q.2)
      (fun p q => versionLe_total p.2 q.2)
      (fun p q r h1 h2 => versionLe_trans (a := p.2) (b := q.2) (c := r.2) h1 h2)
      pairs
  · intro k
    refine pySorted_filter (fun p q => versionLe p.2 q.2)
      (fun p => p.2 == k) ?_ pairs
    intro p q hp hq
    rw [beq_iff_eq] at hp hq
    show versionLe p.2 q.2 = true
    rw [hp, hq]
    exact versionLe_refl k

theorem C5_aggregate_witness :
    exists out,
      aggregate c5World ["A", "B"] (some "Foo") none = .ok out ∧
      out = (pySorted (fun p q => versionLe p.2 q.2) c5Pairs).map Prod.fst ∧
      out.Perm c5Contribs.flatten ∧
      (pySorted (fun p q => versionLe p.2 q.2) c5Pairs).Pairwise
        (fun p q => versionLe p.2 q.2 = true) ∧
      (forall k : VersionKey,
        (pySorted (fun p q => versionLe p.2 q.2) c5Pairs).filter
            (fun p => p.2 == k)
          = c5Pairs.filter fun p => p.2 == k) :=
  C5_aggregate_stable_sort c5World ["A", "B"] (some "Foo") none c5Contribs
    c5Pairs (by decide) (by decide)

end Nappo
